import Mathlib

/-!
Verification of the wdk-wallet-btc core against its specification.

The development shallowly embeds the relevant parts of the source:

* the transaction builder of src/wallet-account-btc.js
  (_getUtxos, _getRawTransaction, _getTransaction);
* the fee estimator _estimateFee and the transfer-history engine
  getTransfers of the read-only account (wallet-account-read-only-btc.js);
* the key-derivation constructor, sign and verify of WalletAccountBtc,
  parameterized over the external cryptographic primitives
  (HMAC-SHA512, SHA-256, secp256k1 signing, base64) which live in
  dependencies outside this repository;
* the runtime account state mutated by dispose().

Machine integers: all satoshi amounts fit comfortably in doubles in the
source, so they are modelled as unbounded Int/Nat.  Fee rates are whole
numbers of sats/vbyte: the Electrum adapter converts BTC/kvB to sats/vB
with multipliedBy(100000).integerValue(ROUND_CEIL), producing an integer,
so Math.ceil / BigNumber ROUND_CEIL applied to rate * vsize is the
identity and the rate is modelled as Int.

External library calls with bit-exact but out-of-scope semantics
(bitcoinjs-lib transaction serialization and virtualSize measurement)
are modelled as explicit parameters.
-/

instance {e a : Type} [DecidableEq e] [DecidableEq a] : DecidableEq (Except e a) := fun x y =>
  match x, y with
  | .ok u, .ok v =>
    if h : u = v then isTrue (by rw [h]) else isFalse (by intro hc; cases hc; exact h rfl)
  | .error u, .error v =>
    if h : u = v then isTrue (by rw [h]) else isFalse (by intro hc; cases hc; exact h rfl)
  | .ok _, .error _ => isFalse (by intro hc; cases hc)
  | .error _, .ok _ => isFalse (by intro hc; cases hc)

/-! ## Transaction builder (src/wallet-account-btc.js) -/

/-- Errors thrown by the transaction builder. -/
inductive BuildErr where
  | noUnspentOutputs
  | belowDustLimit
  | insufficientBalance
deriving DecidableEq

/-- One unspent output as consumed from the Electrum listunspent answer;
only its satoshi value matters to the claims. -/
structure Utxo where
  value : ℤ
deriving DecidableEq

/-- Sum of the values of a list of UTXOs. -/
def sumVal (l : List Utxo) : ℤ := (l.map Utxo.value).sum

/-- The collection loop of _getUtxos: push each unspent output in server
order, stop as soon as the accumulated value reaches the amount
(src/wallet-account-btc.js lines 297-311). -/
def collectUtxos (amount : ℤ) : List Utxo → ℤ → List Utxo
  | [], _ => []
  | u :: rest, tot =>
      u :: (if amount ≤ tot + u.value then [] else collectUtxos amount rest (tot + u.value))

/-- _getUtxos: throws when the unspent list is empty, otherwise collects
in server order until the accumulated value covers the amount (the fee is
not yet known at this point). -/
def getUtxos (amount : ℤ) (unspent : List Utxo) : Except BuildErr (List Utxo) :=
  if unspent.isEmpty then .error .noUnspentOutputs else .ok (collectUtxos amount unspent 0)

/-- Fee computed in _getRawTransaction from the virtual size of the
provisional fee-0 transaction: BigNumber(feeRate) * vsize, rounded up
(identity for the integral rate), floored at 141 sats. -/
def feeCalc (rate : ℤ) (vsize0 : ℕ) : ℤ := max (rate * (vsize0 : ℤ)) 141

/-- The dust limit used by the source (DUST_LIMIT = 546). -/
def DUST_LIMIT : ℤ := 546

/-- The output list produced by createPsbt inside _getRawTransaction for a
given fee: recipient output first, then a change output back to the own
address iff change = totalInput - amount - fee strictly exceeds the dust
limit; a strictly negative change throws InsufficientBalance.  Outputs are
(address, value) pairs with addresses as opaque identifiers. -/
def psbtOutputs (recipient own : ℕ) (totalInput amount fee : ℤ) :
    Except BuildErr (List (ℕ × ℤ)) :=
  let change := totalInput - amount - fee
  if DUST_LIMIT < change then .ok [(recipient, amount), (own, change)]
  else if change < 0 then .error .insufficientBalance
  else .ok [(recipient, amount)]

/-- _getRawTransaction: rejects amounts at or below the dust limit, builds
a provisional fee-0 transaction (whose measured virtual size is the
parameter vsize0, an external bitcoinjs-lib measurement), computes the
fee, and rebuilds with it.  Returns the final outputs together with the
fee. -/
def getRawTransaction (recipient own : ℕ) (utxoSet : List Utxo) (amount : ℤ)
    (feeRate : ℤ) (vsize0 : ℕ) : Except BuildErr (List (ℕ × ℤ) × ℤ) :=
  if amount ≤ DUST_LIMIT then .error .belowDustLimit
  else
    let totalInput := sumVal utxoSet
    match psbtOutputs recipient own totalInput amount 0 with
    | .error e => .error e
    | .ok _ =>
        let fee := feeCalc feeRate vsize0
        match psbtOutputs recipient own totalInput amount fee with
        | .error e => .error e
        | .ok outs => .ok (outs, fee)

/-- _getTransaction, the common path of sendTransaction and
quoteSendTransaction: gather UTXOs covering the amount, clamp the fee-rate
estimate to at least 1 sat/vB, and build the raw transaction. -/
def getTransaction (recipient own : ℕ) (amount : ℤ) (unspent : List Utxo)
    (est : ℤ) (vsize0 : ℕ) : Except BuildErr (List (ℕ × ℤ) × ℤ) :=
  match getUtxos amount unspent with
  | .error e => .error e
  | .ok utxoSet =>
      getRawTransaction recipient own utxoSet amount (if est < 1 then 1 else est) vsize0

/-! ## Fee estimator of the read-only account (_estimateFee) -/

/-- Fee computed inside one iteration of the _estimateFee loop, with n
inputs selected so far totalling total sats: the provisional transaction
has a change output iff total - value exceeds the dust limit, its virtual
size is the external measurement V n hasChange, and the fee is
max(ceil(vsize * rate), 141). -/
def feeFor (V : ℕ → Bool → ℕ) (rate : ℤ) (n : ℕ) (total value : ℤ) : ℤ :=
  max (rate * (V n (decide (DUST_LIMIT < total - value)) : ℤ)) 141

/-- The selection loop of _estimateFee: add unspent outputs one at a time,
re-measure the provisional transaction and recompute the fee after each
addition, and stop as soon as the total covers value + fee.  Returns the
final total, fee and number of selected inputs. -/
def estGo (V : ℕ → Bool → ℕ) (rate value : ℤ) :
    List Utxo → ℤ → ℤ → ℕ → ℤ × ℤ × ℕ
  | [], total, fee, n => (total, fee, n)
  | u :: rest, total, fee, n =>
      let total2 := total + u.value
      let fee2 := feeFor V rate (n + 1) total2 value
      if value + fee2 ≤ total2 then (total2, fee2, n + 1)
      else estGo V rate value rest total2 fee2 (n + 1)

/-- _estimateFee of the read-only account: clamps the rate to at least 1,
fails on an empty unspent list, runs the expanding selection loop, and
fails with InsufficientBalance only if even the exhausted loop leaves
total < value + fee. -/
def estimateFee (V : ℕ → Bool → ℕ) (est value : ℤ) (utxos : List Utxo) :
    Except BuildErr ℤ :=
  if utxos.isEmpty then .error .noUnspentOutputs
  else
    let rate := max est 1
    let r := estGo V rate value utxos 0 0 0
    if r.1 < value + r.2.1 then .error .insufficientBalance else .ok r.2.1

example : getTransaction 0 1 10000 [⟨50000⟩] 1 110 =
    .ok ([(0, 10000), (1, 39859)], 141) := by decide
example : getTransaction 0 1 99000 [⟨99000⟩, ⟨100000⟩] 1 110 =
    .error .insufficientBalance := by decide
example : estimateFee (fun _ _ => 110) 1 900 [⟨1000⟩] = .error .insufficientBalance := by
  decide
example : estimateFee (fun _ _ => 110) 1 900 [⟨600⟩, ⟨700⟩] = .ok 141 := by decide

/-! ## Transfer history engine (getTransfers of the read-only account) -/

/-- A transaction output: script bytes as an opaque identifier, value in
satoshis. -/
structure TxOutH where
  script : ℕ
  value : ℤ
deriving DecidableEq

/-- A transaction input, referencing a previous output by the display txid
(the byte-reversed hash the source recomputes with Buffer.reverse) and the
output index. -/
structure TxInH where
  prevId : ℕ
  prevIndex : ℕ
deriving DecidableEq

/-- A parsed raw transaction. -/
structure TxH where
  ins : List TxInH
  outs : List TxOutH
deriving DecidableEq

/-- One entry of the Electrum history answer. -/
structure HistItem where
  txHash : ℕ
  height : ℤ
deriving DecidableEq

/-- The direction strings assigned by getTransfers. -/
inductive Dir where
  | incoming
  | outgoing
  | change
deriving DecidableEq

/-- The direction filter option of getTransfers. -/
inductive DirFilter where
  | all
  | incoming
  | outgoing
deriving DecidableEq

/-- One emitted transfer record. -/
structure Transfer where
  txid : ℕ
  height : ℤ
  value : ℤ
  vout : ℕ
  direction : Dir
  recipient : Option ℕ
  fee : Option ℤ
  address : ℕ
deriving DecidableEq

/-- The environment getTransfers reads: the Electrum history for the own
address, the transaction store (none = the fetch throws), the own output
script and address, and the partial address decoder
btcAddress.fromOutputScript (none = not decodable). -/
structure Env where
  history : List HistItem
  getTx : ℕ → Option TxH
  myScript : ℕ
  ownAddr : ℕ
  decodeAddr : ℕ → Option ℕ

/-- Resolve one input to its previous output: fetch the parent transaction
and index into its outputs; any failure yields none (the source catches
the fetch error and maps a missing index through prevOut || null). -/
def prevOutOf (env : Env) (i : TxInH) : Option TxOutH :=
  match env.getTx i.prevId with
  | none => none
  | some ptx => ptx.outs.get? i.prevIndex

/-- totalInput of a history transaction: resolved previous outputs
contribute their value, unresolved inputs contribute 0. -/
def totalInputOf (env : Env) (tx : TxH) : ℤ :=
  (tx.ins.map fun i => ((prevOutOf env i).map TxOutH.value).getD 0).sum

/-- totalOutput: the sum of the transaction's output values. -/
def totalOutputOf (tx : TxH) : ℤ := (tx.outs.map TxOutH.value).sum

/-- The fee attached to every record of a history transaction:
totalInput - totalOutput when totalInput > 0, otherwise null. -/
def feeOf (env : Env) (tx : TxH) : Option ℤ :=
  if 0 < totalInputOf env tx then some (totalInputOf env tx - totalOutputOf tx) else none

/-- A history transaction is outgoing iff some resolvable input spends an
output paying the own script; unresolved inputs never mark it outgoing. -/
def isOutgoingOf (env : Env) (tx : TxH) : Bool :=
  tx.ins.any fun i => ((prevOutOf env i).map fun po => po.script == env.myScript).getD false

/-- Per-vout classification of getTransfers, written as the four cases
of the source's if/else chain: to-self and not outgoing is incoming,
not-to-self in an outgoing transaction is outgoing, to-self in an
outgoing transaction is change, anything else is unrelated. -/
def classify : Bool → Bool → Option Dir
  | true, false => some .incoming
  | false, true => some .outgoing
  | true, true => some .change
  | false, false => none

/-- Whether a record direction passes the direction filter. -/
def matchesFilter : DirFilter → Dir → Bool
  | .all, _ => true
  | .incoming, .incoming => true
  | .outgoing, .outgoing => true
  | _, _ => false

/-- The record pushed for one emitted vout. -/
def mkRecord (env : Env) (item : HistItem) (fee : Option ℤ) (v : ℕ) (out : TxOutH)
    (d : Dir) : Transfer :=
  { txid := item.txHash, height := item.height, value := out.value, vout := v,
    direction := d, recipient := env.decodeAddr out.script, fee := fee,
    address := env.ownAddr }

/-- The body of the vout loop for a single output: classify, drop change
and unrelated outputs, apply the direction filter, and build the record.
-/
def recordFor (env : Env) (f : DirFilter) (item : HistItem) (outgoing : Bool)
    (fee : Option ℤ) (v : ℕ) (out : TxOutH) : Option Transfer :=
  match classify (out.script == env.myScript) outgoing with
  | none => none
  | some Dir.change => none
  | some d => if matchesFilter f d then some (mkRecord env item fee v out d) else none

/-- All records a history transaction would emit, ignoring the limit. -/
def voutRecords (env : Env) (f : DirFilter) (item : HistItem) (outgoing : Bool)
    (fee : Option ℤ) : ℕ → List TxOutH → List Transfer
  | _, [] => []
  | v, out :: rest =>
      match recordFor env f item outgoing fee v out with
      | none => voutRecords env f item outgoing fee (v + 1) rest
      | some r => r :: voutRecords env f item outgoing fee (v + 1) rest

/-- The records of one history transaction, ignoring the limit. -/
def txRecords (env : Env) (f : DirFilter) (item : HistItem) (tx : TxH) : List Transfer :=
  voutRecords env f item (isOutgoingOf env tx) (feeOf env tx) 0 tx.outs

/-- The inner vout loop of getTransfers, faithful to the source: the
limit is re-checked just before each push and breaks the loop. -/
def voutLoop (env : Env) (f : DirFilter) (lim : ℕ) (item : HistItem) (outgoing : Bool)
    (fee : Option ℤ) : ℕ → List TxOutH → List Transfer → List Transfer
  | _, [], acc => acc
  | v, out :: rest, acc =>
      match recordFor env f item outgoing fee v out with
      | none => voutLoop env f lim item outgoing fee (v + 1) rest acc
      | some r =>
          if lim ≤ acc.length then acc
          else voutLoop env f lim item outgoing fee (v + 1) rest (acc ++ [r])

/-- The outer history loop of getTransfers: stop when the limit is
reached, skip history entries whose raw transaction cannot be fetched,
and otherwise run the vout loop. -/
def histLoop (env : Env) (f : DirFilter) (lim : ℕ) :
    List HistItem → List Transfer → List Transfer
  | [], acc => acc
  | item :: rest, acc =>
      if lim ≤ acc.length then acc
      else
        match env.getTx item.txHash with
        | none => histLoop env f lim rest acc
        | some tx =>
            histLoop env f lim rest
              (voutLoop env f lim item (isOutgoingOf env tx) (feeOf env tx) 0 tx.outs acc)

/-- getTransfers: drop the first skip history entries, then run the
history loop with the record limit. -/
def getTransfers (env : Env) (f : DirFilter) (lim skip : ℕ) : List Transfer :=
  histLoop env f lim (env.history.drop skip) []

/-- The unlimited concatenation of the per-transaction records, in
history order — the reference value getTransfers truncates. -/
def allRecords (env : Env) (f : DirFilter) : List HistItem → List Transfer
  | [] => []
  | item :: rest =>
      (match env.getTx item.txHash with
       | none => []
       | some tx => txRecords env f item tx) ++ allRecords env f rest

/-! ## Key derivation, sign and verify (WalletAccountBtc constructor) -/

/-- The external cryptographic primitives the constructor, sign and
verify call into (noble-hashes, bitcoinerlab secp256k1, bip32,
bitcoinjs-lib, Node base64).  Byte buffers are lists of naturals and
strings are lists of character codes; an ECDSA signature is its (r, s)
pair. -/
structure CryptoPrims where
  hmacSha512 : List ℕ → List ℕ → List ℕ
  sha256 : List ℕ → List ℕ
  eccSign : List ℕ → List ℕ → ℕ × ℕ
  eccVerify : List ℕ → List ℕ → List ℕ → Bool
  pointFromScalar : List ℕ → List ℕ
  deriveStep : List ℕ × List ℕ → ℕ → List ℕ × List ℕ
  addrOf : List ℕ → List ℕ
  b64enc : List ℕ → List ℕ
  b64dec : List ℕ → List ℕ

/-- The UTF-8 bytes of the BIP-32 HMAC key string used by the
constructor. -/
def bitcoinSeedBytes : List ℕ := [66, 105, 116, 99, 111, 105, 110, 32, 115, 101, 101, 100]

/-- The master private key: the first 32 bytes of
HMAC-SHA512(key, seed). -/
def masterPriv (P : CryptoPrims) (seed : List ℕ) : List ℕ :=
  (P.hmacSha512 bitcoinSeedBytes seed).take 32

/-- The master chain code: the last 32 bytes of the same HMAC output. -/
def masterChain (P : CryptoPrims) (seed : List ℕ) : List ℕ :=
  (P.hmacSha512 bitcoinSeedBytes seed).drop 32

/-- The hardened-index bit of BIP-32 paths. -/
def hardBit : ℕ := 2147483648

/-- The full account derivation path as index list: the source prepends
the fixed BIP-84 prefix (84 hardened, 0 hardened) to the caller tail. -/
def accountPath (tail : List ℕ) : List ℕ := (hardBit + 84) :: hardBit :: tail

/-- BIP-32 path walking: fold the per-step child derivation over the
index list, starting from (private key, chain code). -/
def derivePath (P : CryptoPrims) (kc : List ℕ × List ℕ) (path : List ℕ) :
    List ℕ × List ℕ :=
  path.foldl P.deriveStep kc

/-- The fields of a freshly constructed WalletAccountBtc that the claims
read. -/
structure AccountModel where
  masterKeyAndChainCodeBuffer : List ℕ
  privateKeyBuffer : List ℕ
  chainCodeBuffer : List ℕ
  bip32D : List ℕ
  bip32Chain : List ℕ
  fullPath : List ℕ
  address : List ℕ
  keyPairPub : List ℕ
  keyPairPriv : List ℕ
deriving DecidableEq

/-- The WalletAccountBtc constructor: HMAC the seed, split into master
key and chain code, build the bip32 root node from the master key
(bip32D, bip32Chain are the node's internal copies), derive the child at
the full path, and memoize the p2wpkh address of the child public key.
The exposed key pair mixes the child public key with the master private
key buffer, exactly as the source does. -/
def mkAccount (P : CryptoPrims) (seed tail : List ℕ) : AccountModel :=
  let mk := P.hmacSha512 bitcoinSeedBytes seed
  let priv := mk.take 32
  let cc := mk.drop 32
  let fp := accountPath tail
  let child := derivePath P (priv, cc) fp
  { masterKeyAndChainCodeBuffer := mk
    privateKeyBuffer := priv
    chainCodeBuffer := cc
    bip32D := priv
    bip32Chain := cc
    fullPath := fp
    address := P.addrOf (P.pointFromScalar child.1)
    keyPairPub := P.pointFromScalar child.1
    keyPairPriv := priv }

/-- Fixed-width big-endian byte rendering of a natural number. -/
def bytesBE : ℕ → ℕ → List ℕ
  | 0, _ => []
  | k + 1, n => bytesBE k (n / 256) ++ [n % 256]

/-- The 64-byte compact r||s serialization that the bip32 library's sign
returns (two 32-byte big-endian integers). -/
def compactBytes (sig : ℕ × ℕ) : List ℕ := bytesBE 32 sig.1 ++ bytesBE 32 sig.2

/-- Minimal big-endian byte rendering of a DER integer body. -/
def minBytes (n : ℕ) : List ℕ :=
  let b := (bytesBE 32 n).dropWhile (fun x => x == 0)
  if b.isEmpty then [0] else b

/-- A DER INTEGER: minimal big-endian bytes, 0x00-prefixed when the high
bit is set. -/
def derInt (n : ℕ) : List ℕ :=
  let b := minBytes n
  if 128 ≤ b.headD 0 then 0 :: b else b

/-- Modelled from the spec: the DER serialization of an ECDSA signature
(SEQUENCE of two INTEGERs), which the spec says sign emits; the source
never builds it.  Used to compare the claimed format against the actual
compact output. -/
def derBytes (sig : ℕ × ℕ) : List ℕ :=
  let r := derInt sig.1
  let s := derInt sig.2
  48 :: (r.length + s.length + 4) :: 2 :: r.length :: r ++ 2 :: s.length :: s

/-- WalletAccountBtc.sign: SHA-256 the message, sign the digest with the
bip32 root node (whose private key is the master key), and base64 the
64-byte compact signature the library returns. -/
def signMsg (P : CryptoPrims) (a : AccountModel) (m : List ℕ) : List ℕ :=
  P.b64enc (compactBytes (P.eccSign a.bip32D (P.sha256 m)))

/-- WalletAccountBtc.verify: SHA-256 the message, base64-decode the
signature, and check it against the root node's public key (the point of
the master private key). -/
def verifyMsg (P : CryptoPrims) (a : AccountModel) (m s : List ℕ) : Bool :=
  P.eccVerify (P.pointFromScalar a.bip32D) (P.sha256 m) (P.b64dec s)

/-! ## Account runtime state and dispose() -/

/-- The JavaScript errors the dispose-time code can actually throw; the
source defines no DisposedAccount error at all. -/
inductive JsErr where
  | typeError
deriving DecidableEq

/-- The internal state of the bip32 root node: private key __D, lazily
computed public key __Q (none until first use), and the node's own copy
of the chain code. -/
structure NodeSt where
  D : List ℕ
  Q : Option (List ℕ)
  chainCode : List ℕ
deriving DecidableEq

/-- The mutable state of a WalletAccountBtc: nullable key buffers, the
exposed key pair (never nulled), the bip32 node, the memoized address and
path, and the Electrum connection flag. -/
structure AccountSt where
  privateKeyBuffer : Option (List ℕ)
  chainCodeBuffer : Option (List ℕ)
  masterKeyAndChainCodeBuffer : Option (List ℕ)
  keyPairPriv : List ℕ
  keyPairPub : List ℕ
  bip32 : Option NodeSt
  address : List ℕ
  path : List ℕ
  electrumConnected : Bool
deriving DecidableEq

/-- sodium_memzero overwrites a buffer with zero bytes in place. -/
def zeroed (b : List ℕ) : List ℕ := b.map fun _ => 0

/-- dispose(): memzero the three key buffers, the key-pair private key
(an alias of the master key buffer), and the node's __Q and __D, then
null the buffer fields and the node and disconnect.  Passing a nulled
buffer (or an uncomputed __Q) to sodium_memzero throws a TypeError, which
is modelled by the error branches; the returned pair is the new account
state together with the final state of the (now unreferenced) node
object. -/
def dispose (a : AccountSt) : Except JsErr (AccountSt × NodeSt) :=
  match a.privateKeyBuffer with
  | none => .error .typeError
  | some _ =>
    match a.chainCodeBuffer with
    | none => .error .typeError
    | some _ =>
      match a.masterKeyAndChainCodeBuffer with
      | none => .error .typeError
      | some _ =>
        match a.bip32 with
        | none => .error .typeError
        | some node =>
          match node.Q with
          | none => .error .typeError
          | some q =>
            .ok ({ a with
                    privateKeyBuffer := none
                    chainCodeBuffer := none
                    masterKeyAndChainCodeBuffer := none
                    keyPairPriv := zeroed a.keyPairPriv
                    bip32 := none
                    electrumConnected := false },
                 { node with D := zeroed node.D, Q := some (zeroed q) })

/-- getAddress(): returns the memoized address; it never consults the
key material and works identically on a disposed account. -/
def getAddressSt (a : AccountSt) : Except JsErr (List ℕ) := .ok a.address

/-- sign() on the runtime state: dereferencing a nulled bip32 node throws
a TypeError; otherwise sign with the node's private key as in signMsg. -/
def signSt (P : CryptoPrims) (a : AccountSt) (m : List ℕ) : Except JsErr (List ℕ) :=
  match a.bip32 with
  | none => .error .typeError
  | some node => .ok (P.b64enc (compactBytes (P.eccSign node.D (P.sha256 m))))

/-! ## Lemmas about the builder and the estimator -/

-- Exhausting the _estimateFee selection loop: if the loop result is
-- still short of value + fee, then every unspent output was selected
-- (the total is the full sum) and the final fee is the one measured on
-- the full selection.
theorem estGo_spec (V : ℕ → Bool → ℕ) (rate value : ℤ) :
    ∀ (l : List Utxo) (total fee : ℤ) (n : ℕ),
      (estGo V rate value l total fee n).1 < value + (estGo V rate value l total fee n).2.1 →
      (estGo V rate value l total fee n).1 = total + sumVal l ∧
      (l ≠ [] → (estGo V rate value l total fee n).2.1 =
        feeFor V rate (n + l.length) (total + sumVal l) value) := by
  intro l
  induction l with
  | nil =>
      intro total fee n _
      refine ⟨by simp [estGo, sumVal], by intro hc; exact absurd rfl hc⟩
  | cons u rest ih =>
      intro total fee n h
      simp only [estGo] at h ⊢
      by_cases hb : value + feeFor V rate (n + 1) (total + u.value) value ≤ total + u.value
      · rw [if_pos hb] at h
        dsimp only at h
        exact absurd hb (by omega)
      · rw [if_neg hb] at h ⊢
        obtain ⟨h1, h2⟩ := ih (total + u.value) (feeFor V rate (n + 1) (total + u.value) value)
          (n + 1) h
        have hsum : total + u.value + sumVal rest = total + sumVal (u :: rest) := by
          simp [sumVal]; ring
        refine ⟨by rw [h1, hsum], ?_⟩
        intro _
        by_cases hr : rest = []
        · subst hr
          simp only [estGo]
          simp [sumVal]
        · have hlen : n + 1 + rest.length = n + (u :: rest).length := by
            simp [List.length_cons]; omega
          have := h2 hr
          rw [hsum, hlen] at this
          exact this

/-- C1: the spec says the builder expands the selected UTXO set when the
accumulated value no longer covers value + fee, failing with
InsufficientBalance only when the full unspent list cannot cover it.
Counterexample for the full account's sendTransaction / quote path: with
unspent outputs of 99000 and 100000 sats, an amount of 99000 and a
1 sat/vB rate, _getUtxos selects only the first output (it covers the
amount alone), and _getRawTransaction throws InsufficientBalance even
though the full unspent list (199000 sats) covers amount plus the
computed fee of 141 sats. -/
theorem sendTransaction_no_utxo_expansion_counterexample :
    getTransaction 0 1 99000 [⟨99000⟩, ⟨100000⟩] 1 110 = .error .insufficientBalance ∧
    getUtxos 99000 [⟨99000⟩, ⟨100000⟩] = .ok [⟨99000⟩] ∧
    99000 + feeCalc 1 110 ≤ sumVal [⟨99000⟩, ⟨100000⟩] := by
  decide

/-- C1 (amended): only the read-only account's _estimateFee expands the
selection: whenever it fails with InsufficientBalance, the loop has
already consumed the entire unspent list and even the full sum falls
short of value plus the fee measured on the full selection; the full
account's builder keeps the fixed selection covering only the value. -/
theorem estimateFee_fails_only_when_all_utxos_short (V : ℕ → Bool → ℕ)
    (est value : ℤ) (utxos : List Utxo)
    (h : estimateFee V est value utxos = .error .insufficientBalance) :
    sumVal utxos < value + feeFor V (max est 1) utxos.length (sumVal utxos) value := by
  unfold estimateFee at h
  by_cases he : utxos.isEmpty
  · rw [if_pos he] at h
    exact absurd h (by simp)
  · rw [if_neg he] at h
    by_cases hlt : (estGo V (max est 1) value utxos 0 0 0).1 <
        value + (estGo V (max est 1) value utxos 0 0 0).2.1
    · obtain ⟨h1, h2⟩ := estGo_spec V (max est 1) value utxos 0 0 0 hlt
      have hne : utxos ≠ [] := by
        intro hc
        rw [hc] at he
        exact he rfl
      have hf := h2 hne
      rw [h1, hf] at hlt
      simpa using hlt
    · rw [if_neg hlt] at h
      exact absurd h (by simp)

/-- Witness for the amended C1 theorem at a concrete input: one unspent
output of 1000 sats cannot cover a 900 sat payment plus the 141 sat
minimum fee, and _estimateFee fails only after consuming it. -/
theorem estimateFee_fails_only_when_all_utxos_short_witness :
    sumVal [(⟨1000⟩ : Utxo)] <
      900 + feeFor (fun _ _ => 110) (max 1 1) [(⟨1000⟩ : Utxo)].length
        (sumVal [(⟨1000⟩ : Utxo)]) 900 :=
  estimateFee_fails_only_when_all_utxos_short (fun _ _ => 110) 1 900 [⟨1000⟩] (by decide)

/-- C5: every successfully built transaction has exactly one recipient
output of the requested amount placed first, followed by a change output
back to the own address iff change = sum(inputs) - value - fee strictly
exceeds the 546 sat dust limit, in which case the change output carries
exactly that change; otherwise the difference (between 0 and 546) is
absorbed into the fee. -/
theorem tx_outputs_structure (recipient own : ℕ) (amount : ℤ) (unspent : List Utxo)
    (est : ℤ) (vsize0 : ℕ) (outs : List (ℕ × ℤ)) (fee : ℤ)
    (h : getTransaction recipient own amount unspent est vsize0 = .ok (outs, fee)) :
    ∃ utxoSet, getUtxos amount unspent = .ok utxoSet ∧
      ((DUST_LIMIT < sumVal utxoSet - amount - fee ∧
        outs = [(recipient, amount), (own, sumVal utxoSet - amount - fee)]) ∨
       (0 ≤ sumVal utxoSet - amount - fee ∧ sumVal utxoSet - amount - fee ≤ DUST_LIMIT ∧
        outs = [(recipient, amount)])) := by
  unfold getTransaction at h
  cases hu : getUtxos amount unspent with
  | error e => rw [hu] at h; exact absurd h (by simp)
  | ok utxoSet =>
      rw [hu] at h
      dsimp only at h
      refine ⟨utxoSet, rfl, ?_⟩
      unfold getRawTransaction at h
      by_cases hd : amount ≤ DUST_LIMIT
      · rw [if_pos hd] at h
        exact absurd h (by simp)
      · rw [if_neg hd] at h
        dsimp only at h
        cases h0 : psbtOutputs recipient own (sumVal utxoSet) amount 0 with
        | error e => rw [h0] at h; exact absurd h (by simp)
        | ok outs0 =>
            rw [h0] at h
            cases h1 : psbtOutputs recipient own (sumVal utxoSet) amount
                (feeCalc (if est < 1 then 1 else est) vsize0) with
            | error e => rw [h1] at h; exact absurd h (by simp)
            | ok outs1 =>
                rw [h1] at h
                injection h with h
                injection h with ho hf
                subst ho
                subst hf
                unfold psbtOutputs at h1
                by_cases hc : DUST_LIMIT <
                    sumVal utxoSet - amount - feeCalc (if est < 1 then 1 else est) vsize0
                · rw [if_pos hc] at h1
                  injection h1 with h1
                  exact Or.inl ⟨hc, h1.symm⟩
                · rw [if_neg hc] at h1
                  by_cases hn : sumVal utxoSet - amount -
                      feeCalc (if est < 1 then 1 else est) vsize0 < 0
                  · rw [if_pos hn] at h1
                    exact absurd h1 (by simp)
                  · rw [if_neg hn] at h1
                    injection h1 with h1
                    exact Or.inr ⟨by omega, by omega, h1.symm⟩

/-- Witness for C5 at a concrete input: a single 50000 sat unspent
output, a 10000 sat payment and a 1 sat/vB rate yield the recipient
output first and a 39859 sat change output back to the own address. -/
theorem tx_outputs_structure_witness :
    ∃ utxoSet, getUtxos 10000 [(⟨50000⟩ : Utxo)] = .ok utxoSet ∧
      ((DUST_LIMIT < sumVal utxoSet - 10000 - 141 ∧
        [((0 : ℕ), (10000 : ℤ)), (1, 39859)] =
          [(0, 10000), (1, sumVal utxoSet - 10000 - 141)]) ∨
       (0 ≤ sumVal utxoSet - 10000 - 141 ∧ sumVal utxoSet - 10000 - 141 ≤ DUST_LIMIT ∧
        [((0 : ℕ), (10000 : ℤ)), (1, 39859)] = [(0, 10000)])) :=
  tx_outputs_structure 0 1 10000 [⟨50000⟩] 1 110 [(0, 10000), (1, 39859)] 141 (by decide)

/-- C6: for every transaction built by sendTransaction or quote, the fee
equals max(141, vsize * rate) where vsize is the virtual size of the
provisional fee-0 signed transaction and rate = max(1, estimate) is the
fee estimate clamped to a minimum of 1 sat/vB before use (the estimate is
a whole number of sats/vB, so the ceiling in the spec formula is the
identity). -/
theorem tx_fee_formula (recipient own : ℕ) (amount : ℤ) (unspent : List Utxo)
    (est : ℤ) (vsize0 : ℕ) (outs : List (ℕ × ℤ)) (fee : ℤ)
    (h : getTransaction recipient own amount unspent est vsize0 = .ok (outs, fee)) :
    fee = max 141 (max 1 est * (vsize0 : ℤ)) := by
  unfold getTransaction at h
  cases hu : getUtxos amount unspent with
  | error e => rw [hu] at h; exact absurd h (by simp)
  | ok utxoSet =>
      rw [hu] at h
      dsimp only at h
      unfold getRawTransaction at h
      by_cases hd : amount ≤ DUST_LIMIT
      · rw [if_pos hd] at h
        exact absurd h (by simp)
      · rw [if_neg hd] at h
        dsimp only at h
        cases h0 : psbtOutputs recipient own (sumVal utxoSet) amount 0 with
        | error e => rw [h0] at h; exact absurd h (by simp)
        | ok outs0 =>
            rw [h0] at h
            cases h1 : psbtOutputs recipient own (sumVal utxoSet) amount
                (feeCalc (if est < 1 then 1 else est) vsize0) with
            | error e => rw [h1] at h; exact absurd h (by simp)
            | ok outs1 =>
                rw [h1] at h
                injection h with h
                injection h with _ hf
                rw [← hf]
                unfold feeCalc
                rw [max_comm]
                congr 1
                by_cases h2 : est < 1
                · rw [if_pos h2, max_eq_left (le_of_lt h2)]
                · rw [if_neg h2, max_eq_right (not_lt.mp h2)]

/-- Witness for C6 at a concrete input: the 141 sat floor applies when
rate 1 and vsize 110 give a smaller product. -/
theorem tx_fee_formula_witness : (141 : ℤ) = max 141 (max 1 1 * (110 : ℤ)) :=
  tx_fee_formula 0 1 10000 [⟨50000⟩] 1 110 [(0, 10000), (1, 39859)] 141 (by decide)

/-! ## Lemmas about the transfer history engine -/

-- The limited vout loop emits exactly the unlimited records truncated to
-- the remaining capacity.
theorem voutLoop_eq (env : Env) (f : DirFilter) (lim : ℕ) (item : HistItem)
    (outgoing : Bool) (fee : Option ℤ) :
    ∀ (outs : List TxOutH) (v : ℕ) (acc : List Transfer), acc.length ≤ lim →
      voutLoop env f lim item outgoing fee v outs acc =
        acc ++ (voutRecords env f item outgoing fee v outs).take (lim - acc.length) := by
  intro outs
  induction outs with
  | nil => intro v acc _; simp [voutLoop, voutRecords]
  | cons out rest ih =>
      intro v acc h
      cases hr : recordFor env f item outgoing fee v out with
      | none =>
          simp only [voutLoop, voutRecords, hr]
          exact ih (v + 1) acc h
      | some r =>
          simp only [voutLoop, voutRecords, hr]
          by_cases hl : lim ≤ acc.length
          · rw [if_pos hl]
            have h0 : lim - acc.length = 0 := by omega
            rw [h0]
            simp
          · rw [if_neg hl]
            rw [ih (v + 1) (acc ++ [r]) (by simp; omega)]
            have h2 : lim - acc.length = (lim - (acc ++ [r]).length) + 1 := by
              simp
              omega
            rw [h2, List.take_succ_cons]
            simp

-- The history loop emits exactly the concatenated per-transaction
-- records truncated to the remaining capacity.
theorem histLoop_eq (env : Env) (f : DirFilter) (lim : ℕ) :
    ∀ (items : List HistItem) (acc : List Transfer), acc.length ≤ lim →
      histLoop env f lim items acc =
        acc ++ (allRecords env f items).take (lim - acc.length) := by
  intro items
  induction items with
  | nil => intro acc _; simp [histLoop, allRecords]
  | cons item rest ih =>
      intro acc h
      simp only [histLoop, allRecords]
      by_cases hl : lim ≤ acc.length
      · rw [if_pos hl]
        have h0 : lim - acc.length = 0 := by omega
        rw [h0]
        simp
      · rw [if_neg hl]
        cases ht : env.getTx item.txHash with
        | none =>
            dsimp only
            rw [ih acc h]
            simp
        | some tx =>
            dsimp only
            rw [voutLoop_eq env f lim item (isOutgoingOf env tx) (feeOf env tx) tx.outs 0
              acc h]
            have hlen : (acc ++
                (voutRecords env f item (isOutgoingOf env tx) (feeOf env tx) 0
                  tx.outs).take (lim - acc.length)).length ≤ lim := by
              simp [List.length_take]
              omega
            rw [ih _ hlen, List.append_assoc]
            congr 1
            rw [txRecords, List.take_append_eq_append_take]
            congr 2
            simp [List.length_take]
            omega

-- getTransfers equals the unlimited classification of the history with
-- the first skip transactions dropped, truncated to the limit.
theorem getTransfers_eq (env : Env) (f : DirFilter) (lim skip : ℕ) :
    getTransfers env f lim skip = (allRecords env f (env.history.drop skip)).take lim := by
  rw [getTransfers, histLoop_eq env f lim (env.history.drop skip) [] (by simp)]
  simp

-- Every record of the unlimited vout classification comes from an output
-- of the transaction at the index recorded in the record.
theorem mem_voutRecords (env : Env) (f : DirFilter) (item : HistItem) (outgoing : Bool)
    (fee : Option ℤ) :
    ∀ (outs : List TxOutH) (v : ℕ) (r : Transfer),
      r ∈ voutRecords env f item outgoing fee v outs →
      ∃ k out, outs.get? k = some out ∧
        recordFor env f item outgoing fee (v + k) out = some r := by
  intro outs
  induction outs with
  | nil => intro v r h; simp [voutRecords] at h
  | cons out rest ih =>
      intro v r h
      cases hr : recordFor env f item outgoing fee v out with
      | none =>
          rw [voutRecords, hr] at h
          obtain ⟨k, o, hk, hrec⟩ := ih (v + 1) r h
          refine ⟨k + 1, o, by simpa using hk, ?_⟩
          have e : v + (k + 1) = v + 1 + k := by omega
          rw [e]
          exact hrec
      | some r0 =>
          rw [voutRecords, hr] at h
          rw [List.mem_cons] at h
          rcases h with h | h
          · subst h
            exact ⟨0, out, rfl, by rw [Nat.add_zero]; exact hr⟩
          · obtain ⟨k, o, hk, hrec⟩ := ih (v + 1) r h
            refine ⟨k + 1, o, by simpa using hk, ?_⟩
            have e : v + (k + 1) = v + 1 + k := by omega
            rw [e]
            exact hrec

-- Every record of the unlimited history classification comes from some
-- fetched history transaction.
theorem mem_allRecords (env : Env) (f : DirFilter) :
    ∀ (items : List HistItem) (r : Transfer), r ∈ allRecords env f items →
      ∃ item tx, item ∈ items ∧ env.getTx item.txHash = some tx ∧
        r ∈ txRecords env f item tx := by
  intro items
  induction items with
  | nil => intro r h; simp [allRecords] at h
  | cons item rest ih =>
      intro r h
      rw [allRecords, List.mem_append] at h
      rcases h with h | h
      · cases ht : env.getTx item.txHash with
        | none => rw [ht] at h; simp at h
        | some tx =>
            rw [ht] at h
            exact ⟨item, tx, List.mem_cons_self item rest, ht, h⟩
      · obtain ⟨it, tx, hm, htx, hr⟩ := ih r h
        exact ⟨it, tx, List.mem_cons_of_mem item hm, htx, hr⟩

-- Inversion of the per-vout record builder: the fields of an emitted
-- record, the two possible directions, and the script / direction
-- correspondence.
theorem recordFor_spec (env : Env) (f : DirFilter) (item : HistItem) (outgoing : Bool)
    (fee : Option ℤ) (v : ℕ) (out : TxOutH) (r : Transfer)
    (h : recordFor env f item outgoing fee v out = some r) :
    r.txid = item.txHash ∧ r.height = item.height ∧ r.fee = fee ∧ r.vout = v ∧
    r.value = out.value ∧
    (r.direction = Dir.incoming ∨ r.direction = Dir.outgoing) ∧
    (out.script = env.myScript ↔ r.direction = Dir.incoming) ∧
    (r.direction = Dir.outgoing → outgoing = true) := by
  unfold recordFor at h
  cases hts : (out.script == env.myScript) <;> rw [hts] at h <;> cases outgoing <;>
    dsimp only [classify] at h
  · exact absurd h (by simp)
  · by_cases hf : matchesFilter f Dir.outgoing = true
    · rw [if_pos hf] at h
      injection h with h
      subst h
      refine ⟨rfl, rfl, rfl, rfl, rfl, Or.inr rfl, ?_, fun _ => rfl⟩
      constructor
      · intro hc
        rw [hc] at hts
        simp at hts
      · intro hc
        exact Dir.noConfusion hc
    · rw [if_neg hf] at h
      exact absurd h (by simp)
  · by_cases hf : matchesFilter f Dir.incoming = true
    · rw [if_pos hf] at h
      injection h with h
      subst h
      refine ⟨rfl, rfl, rfl, rfl, rfl, Or.inl rfl, ?_, ?_⟩
      · exact ⟨fun _ => rfl, fun _ => beq_iff_eq.mp hts⟩
      · intro hc
        exact Dir.noConfusion hc
    · rw [if_neg hf] at h
      exact absurd h (by simp)
  · exact absurd h (by simp)

/-- A concrete history environment: one history transaction (txid 1) with
two inputs, one referencing a parent (txid 2) that cannot be fetched and
one referencing a fetchable parent (txid 3) paying 5000 sats to a foreign
script, and a single 4000 sat output paying the own script. -/
def tx1C : TxH := { ins := [⟨2, 0⟩, ⟨3, 0⟩], outs := [⟨100, 4000⟩] }

/-- The fetchable parent transaction of the concrete environment. -/
def tx3C : TxH := { ins := [], outs := [⟨200, 5000⟩] }

/-- The concrete environment itself; the own script and address are 100.
-/
def envC : Env :=
  { history := [⟨1, 5⟩]
    getTx := fun n => if n = 1 then some tx1C else if n = 3 then some tx3C else none
    myScript := 100
    ownAddr := 100
    decodeAddr := fun s => some s }

/-- The single record getTransfers emits in the concrete environment. -/
def recC : Transfer :=
  { txid := 1, height := 5, value := 4000, vout := 0, direction := .incoming,
    recipient := some 100, fee := some 1000, address := 100 }

/-- C4: the spec says any unfetchable parent transaction forces
fee = null on the emitted records.  Counterexample: in envC the first
input's parent (txid 2) cannot be fetched, yet the emitted record carries
fee = 1000 sats (5000 resolved input - 4000 output), because the source
only nulls the fee when the resolved total input is 0. -/
theorem getTransfers_fee_null_counterexample :
    getTransfers envC .all 10 0 = [recC] ∧
    (⟨2, 0⟩ : TxInH) ∈ tx1C.ins ∧
    prevOutOf envC ⟨2, 0⟩ = none ∧
    recC.fee = some 1000 := by
  decide

/-- C4 (amended): every emitted record of a history transaction carries
fee = total_input - total_output computed over the resolvable inputs
only, and fee = null exactly when the resolved total input is 0 (for
example when every parent is unfetchable); unresolvable inputs contribute
0 to total_input and never mark the transaction outgoing. -/
theorem getTransfers_fee_spec (env : Env) (f : DirFilter) (lim skip : ℕ) (r : Transfer)
    (h : r ∈ getTransfers env f lim skip) :
    ∃ tx, env.getTx r.txid = some tx ∧ r.fee = feeOf env tx ∧
      (r.fee = none ↔ totalInputOf env tx ≤ 0) ∧
      (∀ x, r.fee = some x → x = totalInputOf env tx - totalOutputOf tx) ∧
      (isOutgoingOf env tx = true →
        ∃ i ∈ tx.ins, ∃ po, prevOutOf env i = some po ∧ po.script = env.myScript) := by
  rw [getTransfers_eq] at h
  have h2 := List.take_subset lim _ h
  obtain ⟨item, tx, _, htx, hr⟩ := mem_allRecords env f _ r h2
  rw [txRecords] at hr
  obtain ⟨k, out, _, hrec⟩ :=
    mem_voutRecords env f item (isOutgoingOf env tx) (feeOf env tx) tx.outs 0 r hr
  obtain ⟨ht1, _, ht3, _, _, _, _, _⟩ :=
    recordFor_spec env f item (isOutgoingOf env tx) (feeOf env tx) (0 + k) out r hrec
  refine ⟨tx, by rw [ht1]; exact htx, ht3, ?_, ?_, ?_⟩
  · rw [ht3]
    unfold feeOf
    by_cases hp : 0 < totalInputOf env tx
    · rw [if_pos hp]
      simp
      omega
    · rw [if_neg hp]
      simp
      omega
  · intro x hx
    rw [ht3] at hx
    unfold feeOf at hx
    by_cases hp : 0 < totalInputOf env tx
    · rw [if_pos hp] at hx
      injection hx with hx
      exact hx.symm
    · rw [if_neg hp] at hx
      exact absurd hx (by simp)
  · intro ho
    rw [isOutgoingOf, List.any_eq_true] at ho
    obtain ⟨i, hi, hp⟩ := ho
    cases hpo : prevOutOf env i with
    | none => rw [hpo] at hp; simp at hp
    | some po =>
        rw [hpo] at hp
        simp at hp
        exact ⟨i, hi, po, hpo, hp⟩

/-- Witness for the amended C4 theorem at the concrete environment. -/
theorem getTransfers_fee_spec_witness :
    ∃ tx, envC.getTx recC.txid = some tx ∧ recC.fee = feeOf envC tx ∧
      (recC.fee = none ↔ totalInputOf envC tx ≤ 0) ∧
      (∀ x, recC.fee = some x → x = totalInputOf envC tx - totalOutputOf tx) ∧
      (isOutgoingOf envC tx = true →
        ∃ i ∈ tx.ins, ∃ po, prevOutOf envC i = some po ∧ po.script = envC.myScript) :=
  getTransfers_fee_spec envC .all 10 0 recC (by decide)

/-- C7: every record returned by getTransfers has direction incoming or
outgoing (never change), and the output script at the record's vout pays
the own script iff the direction is incoming; change and unrelated
outputs are never emitted. -/
theorem getTransfers_direction_spec (env : Env) (f : DirFilter) (lim skip : ℕ)
    (r : Transfer) (h : r ∈ getTransfers env f lim skip) :
    (r.direction = Dir.incoming ∨ r.direction = Dir.outgoing) ∧
    r.direction ≠ Dir.change ∧
    ∃ tx out, env.getTx r.txid = some tx ∧ tx.outs.get? r.vout = some out ∧
      (out.script = env.myScript ↔ r.direction = Dir.incoming) := by
  rw [getTransfers_eq] at h
  have h2 := List.take_subset lim _ h
  obtain ⟨item, tx, _, htx, hr⟩ := mem_allRecords env f _ r h2
  rw [txRecords] at hr
  obtain ⟨k, out, hk, hrec⟩ :=
    mem_voutRecords env f item (isOutgoingOf env tx) (feeOf env tx) tx.outs 0 r hr
  obtain ⟨ht1, _, _, ht4, _, hdir, hiff, _⟩ :=
    recordFor_spec env f item (isOutgoingOf env tx) (feeOf env tx) (0 + k) out r hrec
  refine ⟨hdir, ?_, tx, out, by rw [ht1]; exact htx, ?_, hiff⟩
  · intro hc
    rcases hdir with hd | hd <;> rw [hc] at hd <;> exact Dir.noConfusion hd
  · rw [ht4]
    simpa using hk

/-- Witness for C7 at the concrete environment. -/
theorem getTransfers_direction_spec_witness :
    (recC.direction = Dir.incoming ∨ recC.direction = Dir.outgoing) ∧
    recC.direction ≠ Dir.change ∧
    ∃ tx out, envC.getTx recC.txid = some tx ∧ tx.outs.get? recC.vout = some out ∧
      (out.script = envC.myScript ↔ recC.direction = Dir.incoming) :=
  getTransfers_direction_spec envC .all 10 0 recC (by decide)

/-- C8: pagination — skip drops whole history transactions (all their
vouts) before classification and limit caps the number of emitted
records: getTransfers equals the unlimited classification of the
skip-dropped history truncated to limit; limit 0 yields the empty list;
a skip at or beyond the history length yields the empty list. -/
theorem getTransfers_pagination (env : Env) (f : DirFilter) (lim skip : ℕ) :
    getTransfers env f lim skip = (allRecords env f (env.history.drop skip)).take lim ∧
    (getTransfers env f lim skip).length ≤ lim ∧
    getTransfers env f 0 skip = [] ∧
    (env.history.length ≤ skip → getTransfers env f lim skip = []) := by
  refine ⟨getTransfers_eq env f lim skip, ?_, ?_, ?_⟩
  · rw [getTransfers_eq]
    simp [List.length_take]
  · rw [getTransfers_eq]
    simp
  · intro hs
    rw [getTransfers_eq, List.drop_eq_nil_of_le hs]
    simp [allRecords]

/-- Witness for C8 at the concrete environment: limit 0 and a skip past
the single-entry history both produce the empty list. -/
theorem getTransfers_pagination_witness :
    getTransfers envC .all 0 0 = [] ∧ getTransfers envC .all 5 3 = [] :=
  ⟨(getTransfers_pagination envC .all 7 0).2.2.1,
   (getTransfers_pagination envC .all 5 3).2.2.2 (by decide)⟩

/-! ## Concrete primitive instantiation for the key claims -/

/-- A concrete, executable instantiation of the abstract cryptographic
primitives, used to evaluate the constructor, sign and verify models at
concrete inputs: derivation genuinely changes the key, the public key
determines the private key (so toyVerify can check signatures), and the
base64 codec is an injective byte shift. -/
def toyHmac (key data : List ℕ) : List ℕ :=
  (List.range 64).map fun i => (i + 1 + key.length + data.length) % 256

/-- Toy SHA-256: appends a marker so distinct messages keep distinct
digests. -/
def toySha (m : List ℕ) : List ℕ := m ++ [11]

/-- Toy ECDSA signing: the (r, s) pair of key and digest checksums. -/
def toySign (k h : List ℕ) : ℕ × ℕ := (k.foldl (· + ·) 0, h.foldl (· + ·) 0)

/-- Toy point-from-scalar: tags the key, keeping it recoverable. -/
def toyPoint (k : List ℕ) : List ℕ := 2 :: k

/-- Toy verification: recompute the compact signature from the key inside
the public point and compare. -/
def toyVerify (pub h sig : List ℕ) : Bool := sig == compactBytes (toySign (pub.drop 1) h)

/-- Toy BIP-32 child derivation: shifts every key byte by the index. -/
def toyDerive (kc : List ℕ × List ℕ) (i : ℕ) : List ℕ × List ℕ :=
  (kc.1.map fun b => (b + i + 1) % 256, kc.2)

/-- Toy p2wpkh address encoding. -/
def toyAddr (pub : List ℕ) : List ℕ := 9 :: pub

/-- Toy base64 encoding (injective byte shift). -/
def toyB64enc (l : List ℕ) : List ℕ := l.map (· + 1)

/-- Toy base64 decoding, inverse of the encoding. -/
def toyB64dec (l : List ℕ) : List ℕ := l.map (· - 1)

/-- The bundled toy primitives. -/
def toyPrims : CryptoPrims :=
  { hmacSha512 := toyHmac, sha256 := toySha, eccSign := toySign, eccVerify := toyVerify,
    pointFromScalar := toyPoint, deriveStep := toyDerive, addrOf := toyAddr,
    b64enc := toyB64enc, b64dec := toyB64dec }

/-- The derived child private key of the concrete account (seed [3],
path tail [5]). -/
def childKeyC : List ℕ :=
  (derivePath toyPrims (masterPriv toyPrims [3], masterChain toyPrims [3])
    (accountPath [5])).1

/-- C2: the spec says sign(m) is the base64 of the DER serialization of
the signature of SHA-256(m) under the derived child private key.
Counterexample at a concrete instantiation of the primitives: the actual
output is the base64 of the 64-byte compact serialization of the
signature under the MASTER private key — it differs from the claimed
value both in the signing key (the derived child key differs from the
master key) and in the serialization (compact, not DER). -/
theorem sign_der_child_key_counterexample :
    signMsg toyPrims (mkAccount toyPrims [3] [5]) [5] ≠
      toyPrims.b64enc (derBytes (toyPrims.eccSign childKeyC (toyPrims.sha256 [5]))) ∧
    signMsg toyPrims (mkAccount toyPrims [3] [5]) [5] ≠
      toyPrims.b64enc (compactBytes (toyPrims.eccSign childKeyC (toyPrims.sha256 [5]))) ∧
    signMsg toyPrims (mkAccount toyPrims [3] [5]) [5] =
      toyPrims.b64enc
        (compactBytes (toyPrims.eccSign (masterPriv toyPrims [3]) (toyPrims.sha256 [5]))) ∧
    childKeyC ≠ masterPriv toyPrims [3] := by
  decide

/-- C2 (amended): sign(m) returns the base64 of the 64-byte compact
(r||s) serialization — not DER — of the deterministic signature of
SHA-256(m) under the BIP-32 MASTER private key — not the derived child
key; verify checks a signature against the master key's public point, so
it accepts sign(m) for m and rejects it for a message with a different
digest, given that the signature scheme behaves accordingly (the three
hypotheses state the base64 round-trip and the two scheme facts at the
keys and digests involved). -/
theorem sign_verify_use_master_key (P : CryptoPrims) (seed tail m m2 : List ℕ)
    (hdec : P.b64dec (P.b64enc (compactBytes (P.eccSign (masterPriv P seed)
      (P.sha256 m)))) = compactBytes (P.eccSign (masterPriv P seed) (P.sha256 m)))
    (hver : P.eccVerify (P.pointFromScalar (masterPriv P seed)) (P.sha256 m)
      (compactBytes (P.eccSign (masterPriv P seed) (P.sha256 m))) = true)
    (hrej : P.eccVerify (P.pointFromScalar (masterPriv P seed)) (P.sha256 m2)
      (compactBytes (P.eccSign (masterPriv P seed) (P.sha256 m))) = false) :
    signMsg P (mkAccount P seed tail) m =
      P.b64enc (compactBytes (P.eccSign (masterPriv P seed) (P.sha256 m))) ∧
    verifyMsg P (mkAccount P seed tail) m (signMsg P (mkAccount P seed tail) m) = true ∧
    verifyMsg P (mkAccount P seed tail) m2 (signMsg P (mkAccount P seed tail) m) =
      false := by
  have hD : (mkAccount P seed tail).bip32D = masterPriv P seed := rfl
  refine ⟨rfl, ?_, ?_⟩
  · unfold verifyMsg signMsg
    rw [hD, hdec]
    exact hver
  · unfold verifyMsg signMsg
    rw [hD, hdec]
    exact hrej

/-- Witness for the amended C2 theorem at the toy primitives and a
concrete seed, path and message pair. -/
theorem sign_verify_use_master_key_witness :
    signMsg toyPrims (mkAccount toyPrims [3] [5]) [5] =
      toyPrims.b64enc
        (compactBytes (toyPrims.eccSign (masterPriv toyPrims [3]) (toyPrims.sha256 [5]))) ∧
    verifyMsg toyPrims (mkAccount toyPrims [3] [5]) [5]
      (signMsg toyPrims (mkAccount toyPrims [3] [5]) [5]) = true ∧
    verifyMsg toyPrims (mkAccount toyPrims [3] [5]) [9]
      (signMsg toyPrims (mkAccount toyPrims [3] [5]) [5]) = false :=
  sign_verify_use_master_key toyPrims [3] [5] [5] [9] (by decide) (by decide) (by decide)

/-- C10: the exposed key pair pairs the BIP-32 master private key (the
first 32 bytes of the HMAC-SHA512 output) with the derived child public
key at the account's full path, so whenever the derived child's point
differs from the master's point (which derivation guarantees up to a
negligible collision), keyPair.privateKey is not the private key
corresponding to keyPair.publicKey. -/
theorem keyPair_mixes_master_and_child (P : CryptoPrims) (seed tail : List ℕ)
    (hne : P.pointFromScalar
        (derivePath P (masterPriv P seed, masterChain P seed) (accountPath tail)).1 ≠
      P.pointFromScalar (masterPriv P seed)) :
    (mkAccount P seed tail).keyPairPriv = masterPriv P seed ∧
    (mkAccount P seed tail).keyPairPub =
      P.pointFromScalar
        (derivePath P (masterPriv P seed, masterChain P seed) (accountPath tail)).1 ∧
    (mkAccount P seed tail).keyPairPub ≠
      P.pointFromScalar ((mkAccount P seed tail).keyPairPriv) :=
  ⟨rfl, rfl, hne⟩

/-- Witness for C10 at the toy primitives: the derived child point
differs from the master point, and the key pair indeed mixes the two. -/
theorem keyPair_mixes_master_and_child_witness :
    (mkAccount toyPrims [3] [5]).keyPairPriv = masterPriv toyPrims [3] ∧
    (mkAccount toyPrims [3] [5]).keyPairPub =
      toyPrims.pointFromScalar
        (derivePath toyPrims (masterPriv toyPrims [3], masterChain toyPrims [3])
          (accountPath [5])).1 ∧
    (mkAccount toyPrims [3] [5]).keyPairPub ≠
      toyPrims.pointFromScalar ((mkAccount toyPrims [3] [5]).keyPairPriv) :=
  keyPair_mixes_master_and_child toyPrims [3] [5] (by decide)

/-! ## Concrete account states for the dispose claims -/

/-- The bip32 node of the concrete live account (public key computed, as
after any signing or fingerprint access). -/
def liveNode : NodeSt :=
  { D := List.replicate 32 1, Q := some (List.replicate 33 4),
    chainCode := List.replicate 32 2 }

/-- A concrete live account state with 32-byte key buffers. -/
def liveA : AccountSt :=
  { privateKeyBuffer := some (List.replicate 32 1)
    chainCodeBuffer := some (List.replicate 32 2)
    masterKeyAndChainCodeBuffer := some (List.replicate 64 3)
    keyPairPriv := List.replicate 32 1
    keyPairPub := List.replicate 33 4
    bip32 := some liveNode
    address := [7, 7]
    path := [84, 0]
    electrumConnected := true }

/-- The account state after disposing liveA. -/
def disposedA : AccountSt :=
  { privateKeyBuffer := none
    chainCodeBuffer := none
    masterKeyAndChainCodeBuffer := none
    keyPairPriv := List.replicate 32 0
    keyPairPub := List.replicate 33 4
    bip32 := none
    address := [7, 7]
    path := [84, 0]
    electrumConnected := false }

/-- The final state of the bip32 node object after disposing liveA. -/
def disposedNode : NodeSt :=
  { D := List.replicate 32 0, Q := some (List.replicate 33 0),
    chainCode := List.replicate 32 2 }

/-- C3: the spec says dispose() is idempotent and every other operation
invoked afterwards fails with DisposedAccount.  Counterexample: after a
first successful dispose of a live account, a second dispose call throws
a TypeError (sodium_memzero receives the nulled private key buffer) — it
is not a no-op — and getAddress still succeeds with the memoized address
instead of failing with DisposedAccount (no such error exists in the
source). -/
theorem dispose_idempotence_counterexample :
    dispose liveA = .ok (disposedA, disposedNode) ∧
    dispose disposedA = .error JsErr.typeError ∧
    getAddressSt disposedA = .ok liveA.address := by
  decide

/-- C3 (amended): dispose is not idempotent and there is no
DisposedAccount error: after a successful dispose, a second dispose call
and any operation touching the key material (sign) fail with a TypeError
from the nulled buffers and node, while getAddress still succeeds,
returning the memoized address. -/
theorem dispose_not_idempotent (P : CryptoPrims) (m : List ℕ) (a a2 : AccountSt)
    (n2 : NodeSt) (h : dispose a = .ok (a2, n2)) :
    dispose a2 = .error JsErr.typeError ∧
    signSt P a2 m = .error JsErr.typeError ∧
    getAddressSt a2 = .ok a.address := by
  unfold dispose at h
  cases h1 : a.privateKeyBuffer <;> rw [h1] at h <;> dsimp only at h
  · exact absurd h (by simp)
  · cases h2 : a.chainCodeBuffer <;> rw [h2] at h <;> dsimp only at h
    · exact absurd h (by simp)
    · cases h3 : a.masterKeyAndChainCodeBuffer <;> rw [h3] at h <;> dsimp only at h
      · exact absurd h (by simp)
      · cases h4 : a.bip32 <;> rw [h4] at h <;> dsimp only at h
        · exact absurd h (by simp)
        · rename_i node
          cases h5 : node.Q <;> rw [h5] at h <;> dsimp only at h
          · exact absurd h (by simp)
          · injection h with h
            injection h with ha hn
            subst ha
            exact ⟨rfl, rfl, rfl⟩

/-- Witness for the amended C3 theorem at the concrete live account. -/
theorem dispose_not_idempotent_witness :
    dispose disposedA = .error JsErr.typeError ∧
    signSt toyPrims disposedA [5] = .error JsErr.typeError ∧
    getAddressSt disposedA = .ok liveA.address :=
  dispose_not_idempotent toyPrims [5] liveA disposedA disposedNode (by decide)

/-- C9: the spec says every 32-byte-or-larger secret buffer held by the
account — including the BIP-32 node's internal key material — contains
only zero bytes after dispose() returns.  Counterexample: the node's own
32-byte chain-code copy (created by Buffer.from in the constructor and
never passed to sodium_memzero) still holds its secret bytes after a
successful dispose. -/
theorem dispose_chaincode_not_zeroed_counterexample :
    dispose liveA = .ok (disposedA, disposedNode) ∧
    disposedNode.chainCode = List.replicate 32 2 ∧
    disposedNode.chainCode.length = 32 ∧
    2 ∈ disposedNode.chainCode ∧
    disposedNode.chainCode ≠ zeroed disposedNode.chainCode := by
  decide

-- Every byte of a memzeroed buffer is zero.
theorem zeroed_all_zero (l : List ℕ) : ∀ x ∈ zeroed l, x = 0 := by
  intro x hx
  obtain ⟨a, _, ha⟩ := List.mem_map.mp hx
  exact ha.symm

/-- C9 (amended): a successful dispose zeroes the master private key
buffer (aliased by keyPair.privateKey), the chain-code and
master-key-plus-chain-code buffers (zeroed in place before their fields
are nulled), and the node's __D and __Q, and leaves the memoized address
and path unchanged — but the node's own chain-code copy is NOT zeroed. -/
theorem dispose_zeroization (a a2 : AccountSt) (n n2 : NodeSt) (q : List ℕ)
    (hb : a.bip32 = some n) (hq : n.Q = some q) (h : dispose a = .ok (a2, n2)) :
    a2.keyPairPriv = zeroed a.keyPairPriv ∧
    (∀ x ∈ a2.keyPairPriv, x = 0) ∧
    n2.D = zeroed n.D ∧
    (∀ x ∈ n2.D, x = 0) ∧
    n2.Q = some (zeroed q) ∧
    n2.chainCode = n.chainCode ∧
    a2.address = a.address ∧
    a2.path = a.path ∧
    a2.privateKeyBuffer = none ∧
    a2.chainCodeBuffer = none ∧
    a2.masterKeyAndChainCodeBuffer = none ∧
    a2.bip32 = none := by
  unfold dispose at h
  cases h1 : a.privateKeyBuffer <;> rw [h1] at h <;> dsimp only at h
  · exact absurd h (by simp)
  · cases h2 : a.chainCodeBuffer <;> rw [h2] at h <;> dsimp only at h
    · exact absurd h (by simp)
    · cases h3 : a.masterKeyAndChainCodeBuffer <;> rw [h3] at h <;> dsimp only at h
      · exact absurd h (by simp)
      · rw [hb] at h
        dsimp only at h
        rw [hq] at h
        dsimp only at h
        injection h with h
        injection h with ha hn
        subst ha
        subst hn
        refine ⟨rfl, zeroed_all_zero a.keyPairPriv, rfl, zeroed_all_zero n.D, rfl, rfl,
          rfl, rfl, rfl, rfl, rfl, rfl⟩

/-- Witness for the amended C9 theorem at the concrete live account. -/
theorem dispose_zeroization_witness :
    disposedA.keyPairPriv = zeroed liveA.keyPairPriv ∧
    (∀ x ∈ disposedA.keyPairPriv, x = 0) ∧
    disposedNode.D = zeroed liveNode.D ∧
    (∀ x ∈ disposedNode.D, x = 0) ∧
    disposedNode.Q = some (zeroed (List.replicate 33 4)) ∧
    disposedNode.chainCode = liveNode.chainCode ∧
    disposedA.address = liveA.address ∧
    disposedA.path = liveA.path ∧
    disposedA.privateKeyBuffer = none ∧
    disposedA.chainCodeBuffer = none ∧
    disposedA.masterKeyAndChainCodeBuffer = none ∧
    disposedA.bip32 = none :=
  dispose_zeroization liveA disposedA liveNode disposedNode (List.replicate 33 4)
    (by decide) (by decide) (by decide)
